import Mathlib

/-
Formal model of the EyeCare application (src/app.py).

The development shallowly embeds the pieces of the program that the
specification talks about:

* `extract_json` models the Python function of the same name: a greedy
  regex scan (the pattern brace-dot-star-brace with DOTALL) followed by
  `json.loads`, with every exception collapsed to a single `ValueError`
  message.
* `json_loads` models Python's `json.loads` on the JSON subset the
  program can receive: objects, arrays, strings with escape decoding,
  numbers kept as validated literals, `true`, `false`, `null`, and the
  Python extensions `NaN`, `Infinity`, `-Infinity`.  Decoded strings are
  represented as lists of Unicode code points (`List Nat`) so that lone
  surrogates from escape sequences can be represented faithfully.
* `analyze`, `camera_branch`, `afterSave`, `call_openrouter_vision`,
  `result_route` model the Flask handlers; external effects (PIL image
  decoding, the outbound HTTP call) are passed in as oracle functions,
  and the outcome records the response, the session, the file writes and
  the upstream calls that were made.
-/

namespace EyeCare

/-- JSON values as produced by the modelled `json.loads`.  Object fields
keep parse order; strings are lists of code points; numbers keep their
validated source literal. -/
inductive Json where
  | null : Json
  | bool (b : Bool) : Json
  | num (lit : String) : Json
  | str (s : List Nat) : Json
  | arr (elems : List Json) : Json
  | obj (fields : List (List Nat × Json)) : Json

/-- JSON whitespace characters, exactly the set Python's decoder skips. -/
def jsonWs (c : Char) : Bool :=
  c = ' ' || c = '\t' || c = '\n' || c = '\r'

/-- Strip leading JSON whitespace. -/
def skipWs : List Char → List Char
  | [] => []
  | c :: rest => if jsonWs c then skipWs rest else c :: rest

/-- Value of a hexadecimal digit. -/
def hexVal (c : Char) : Option Nat :=
  if '0' ≤ c ∧ c ≤ '9' then some (c.toNat - 48)
  else if 'a' ≤ c ∧ c ≤ 'f' then some (c.toNat - 87)
  else if 'A' ≤ c ∧ c ≤ 'F' then some (c.toNat - 55)
  else none

/-- Body of a JSON string after the opening quote: decodes escapes,
combines surrogate pairs as Python's decoder does, rejects raw control
characters, and returns the decoded code points with the remaining
input. -/
def parseStringBody : Nat → List Char → List Nat → Option (List Nat × List Char)
  | 0, _, _ => none
  | _ + 1, [], _ => none
  | fuel + 1, c :: rest, acc =>
    if c = '"' then some (acc.reverse, rest)
    else if c = '\\' then
      match rest with
      | '"' :: r => parseStringBody fuel r (34 :: acc)
      | '\\' :: r => parseStringBody fuel r (92 :: acc)
      | '/' :: r => parseStringBody fuel r (47 :: acc)
      | 'b' :: r => parseStringBody fuel r (8 :: acc)
      | 'f' :: r => parseStringBody fuel r (12 :: acc)
      | 'n' :: r => parseStringBody fuel r (10 :: acc)
      | 'r' :: r => parseStringBody fuel r (13 :: acc)
      | 't' :: r => parseStringBody fuel r (9 :: acc)
      | 'u' :: h1 :: h2 :: h3 :: h4 :: r =>
        match hexVal h1, hexVal h2, hexVal h3, hexVal h4 with
        | some a, some b, some cc, some d =>
          let n := a * 4096 + b * 256 + cc * 16 + d
          if 55296 ≤ n ∧ n < 56320 then
            match r with
            | '\\' :: 'u' :: g1 :: g2 :: g3 :: g4 :: r2 =>
              match hexVal g1, hexVal g2, hexVal g3, hexVal g4 with
              | some a2, some b2, some c2, some d2 =>
                let m := a2 * 4096 + b2 * 256 + c2 * 16 + d2
                if 56320 ≤ m ∧ m < 57344 then
                  parseStringBody fuel r2
                    ((65536 + (n - 55296) * 1024 + (m - 56320)) :: acc)
                else parseStringBody fuel r (n :: acc)
              | _, _, _, _ => parseStringBody fuel r (n :: acc)
            | _ => parseStringBody fuel r (n :: acc)
          else parseStringBody fuel r (n :: acc)
        | _, _, _, _ => none
      | _ => none
    else if c.toNat < 32 then none
    else parseStringBody fuel rest (c.toNat :: acc)

/-- Number literal at the current position, following Python's JSON
number regex: optional minus, integer part `0` or nonzero-led digits,
optional fraction, optional exponent.  Returns the literal and the rest;
optional groups that fail to match are simply not consumed. -/
def parseNumberCore (cs : List Char) : Option (List Char × List Char) :=
  let (sign, cs1) : List Char × List Char :=
    match cs with
    | '-' :: r => (['-'], r)
    | _ => ([], cs)
  let intPart : Option (List Char × List Char) :=
    match cs1 with
    | '0' :: r => some (['0'], r)
    | c :: r =>
      if c.isDigit then
        let (ds, r2) := List.span Char.isDigit r
        some (c :: ds, r2)
      else none
    | [] => none
  match intPart with
  | none => none
  | some (ip, r1) =>
    let (fp, r2) : List Char × List Char :=
      match r1 with
      | '.' :: r =>
        match List.span Char.isDigit r with
        | ([], _) => ([], r1)
        | (ds, r3) => ('.' :: ds, r3)
      | _ => ([], r1)
    let (ep, r4) : List Char × List Char :=
      match r2 with
      | e :: r =>
        if e = 'e' || e = 'E' then
          let (sgn, rr) : List Char × List Char :=
            match r with
            | s :: rs => if s = '+' || s = '-' then ([s], rs) else ([], r)
            | [] => ([], r)
          match List.span Char.isDigit rr with
          | ([], _) => ([], r2)
          | (ds, r5) => (e :: (sgn ++ ds), r5)
        else ([], r2)
      | [] => ([], r2)
    some (sign ++ ip ++ fp ++ ep, r4)

mutual

/-- One JSON value at the current position (whitespace already skipped),
mirroring Python's scanner. -/
def parseValue : Nat → List Char → Option (Json × List Char)
  | 0, _ => none
  | _ + 1, [] => none
  | fuel + 1, c :: rest =>
    if c = '\x7b' then parseObjBody fuel (skipWs rest)
    else if c = '[' then parseArrBody fuel (skipWs rest)
    else if c = '"' then
      match parseStringBody (rest.length + 1) rest [] with
      | some (s, r) => some (.str s, r)
      | none => none
    else if c = 't' then
      match rest with
      | 'r' :: 'u' :: 'e' :: r => some (.bool true, r)
      | _ => none
    else if c = 'f' then
      match rest with
      | 'a' :: 'l' :: 's' :: 'e' :: r => some (.bool false, r)
      | _ => none
    else if c = 'n' then
      match rest with
      | 'u' :: 'l' :: 'l' :: r => some (.null, r)
      | _ => none
    else if c = 'N' then
      match rest with
      | 'a' :: 'N' :: r => some (.num "NaN", r)
      | _ => none
    else if c = 'I' then
      match rest with
      | 'n' :: 'f' :: 'i' :: 'n' :: 'i' :: 't' :: 'y' :: r =>
        some (.num "Infinity", r)
      | _ => none
    else if c = '-' then
      match rest with
      | 'I' :: 'n' :: 'f' :: 'i' :: 'n' :: 'i' :: 't' :: 'y' :: r =>
        some (.num "-Infinity", r)
      | _ =>
        match parseNumberCore (c :: rest) with
        | some (lit, r) => some (.num (String.mk lit), r)
        | none => none
    else
      match parseNumberCore (c :: rest) with
      | some (lit, r) => some (.num (String.mk lit), r)
      | none => none

/-- Object body after the opening brace (whitespace skipped). -/
def parseObjBody : Nat → List Char → Option (Json × List Char)
  | 0, _ => none
  | fuel + 1, cs =>
    match cs with
    | '\x7d' :: r => some (.obj [], r)
    | _ => parseMembers fuel cs []

/-- Comma-separated key/value members of an object. -/
def parseMembers : Nat → List Char → List (List Nat × Json) →
    Option (Json × List Char)
  | 0, _, _ => none
  | fuel + 1, cs, acc =>
    match cs with
    | '"' :: r =>
      match parseStringBody (r.length + 1) r [] with
      | none => none
      | some (key, r1) =>
        match skipWs r1 with
        | ':' :: r2 =>
          match parseValue fuel (skipWs r2) with
          | none => none
          | some (v, r3) =>
            match skipWs r3 with
            | ',' :: r4 => parseMembers fuel (skipWs r4) ((key, v) :: acc)
            | '\x7d' :: r4 => some (.obj ((key, v) :: acc).reverse, r4)
            | _ => none
        | _ => none
    | _ => none

/-- Array body after the opening bracket (whitespace skipped). -/
def parseArrBody : Nat → List Char → Option (Json × List Char)
  | 0, _ => none
  | fuel + 1, cs =>
    match cs with
    | ']' :: r => some (.arr [], r)
    | _ => parseElems fuel cs []

/-- Comma-separated elements of an array. -/
def parseElems : Nat → List Char → List Json → Option (Json × List Char)
  | 0, _, _ => none
  | fuel + 1, cs, acc =>
    match parseValue fuel cs with
    | none => none
    | some (v, r) =>
      match skipWs r with
      | ',' :: r2 => parseElems fuel (skipWs r2) (v :: acc)
      | ']' :: r2 => some (.arr (v :: acc).reverse, r2)
      | _ => none

end

/-- Model of Python's `json.loads`: skip leading whitespace, parse one
value, require only whitespace to remain.  `none` models a raised
`json.JSONDecodeError`. -/
def json_loads (s : String) : Option Json :=
  match parseValue (3 * s.data.length + 3) (skipWs s.data) with
  | some (v, rest) => if skipWs rest = [] then some v else none
  | none => none

/-- Longest prefix of the input ending at its last closing brace, or
`none` when the input has no closing brace.  This is how the greedy
dot-star of the regex behaves once an opening brace has matched. -/
def takeToLastClose : List Char → Option (List Char)
  | [] => none
  | c :: rest =>
    match takeToLastClose rest with
    | some t => some (c :: t)
    | none => if c = '\x7d' then some [c] else none

/-- Operational model of `re.search` with pattern
brace-dot-star-brace under DOTALL: try each start position from the
left; at an opening brace the greedy dot-star extends to the last
closing brace of the remaining input. -/
def reSearchGreedy : List Char → Option (List Char)
  | [] => none
  | c :: rest =>
    if c = '\x7b' then
      match takeToLastClose rest with
      | some t => some (c :: t)
      | none => reSearchGreedy rest
    else reSearchGreedy rest

/-- Index of the first opening brace. -/
def firstOpenIdx : List Char → Option Nat
  | [] => none
  | c :: rest => if c = '\x7b' then some 0 else (firstOpenIdx rest).map (· + 1)

/-- Index of the last closing brace. -/
def lastCloseIdx : List Char → Option Nat
  | [] => none
  | c :: rest =>
    match lastCloseIdx rest with
    | some k => some (k + 1)
    | none => if c = '\x7d' then some 0 else none

/-- Declarative span selection: the substring from the first opening
brace to the last closing brace of the whole input, when the former
precedes the latter. -/
def outermostSpan (cs : List Char) : Option (List Char) :=
  match firstOpenIdx cs, lastCloseIdx cs with
  | some i, some j =>
    if i < j then some ((cs.drop i).take (j - i + 1)) else none
  | _, _ => none

/-- The `ValueError` message raised by `extract_json`. -/
def invalidJsonMsg : String := "Invalid JSON returned by OpenRouter model"

/-- Model of `extract_json` from src/app.py: greedy regex scan for a
brace-delimited span, then `json.loads`; every failure (no match, or a
parse error) collapses to one `ValueError`. -/
def extract_json (text : String) : Except String Json :=
  match reSearchGreedy text.data with
  | none => .error invalidJsonMsg
  | some span =>
    match json_loads (String.mk span) with
    | some v => .ok v
    | none => .error invalidJsonMsg

theorem lastCloseIdx_eq_none_iff (l : List Char) :
    lastCloseIdx l = none ↔ '\x7d' ∉ l := by
  induction l with
  | nil => simp [lastCloseIdx]
  | cons c rest ih =>
    simp only [lastCloseIdx, List.mem_cons]
    cases h : lastCloseIdx rest with
    | some k =>
      rw [h] at ih
      simp only [reduceCtorEq, false_iff, not_not] at ih
      simp [ih]
    | none =>
      rw [h] at ih
      simp only [true_iff] at ih
      by_cases hc : c = '\x7d'
      · simp [hc]
      · simp [hc, ih]
        exact fun h => hc h.symm

theorem takeToLastClose_eq (l : List Char) :
    takeToLastClose l = (lastCloseIdx l).map (fun k => l.take (k + 1)) := by
  induction l with
  | nil => rfl
  | cons c rest ih =>
    simp only [takeToLastClose, lastCloseIdx]
    cases h : lastCloseIdx rest with
    | some k =>
      rw [h] at ih
      simp only [Option.map_some'] at ih
      simp [ih, h, List.take_succ_cons]
    | none =>
      rw [h] at ih
      simp only [Option.map_none'] at ih
      by_cases hc : c = '\x7d' <;> simp [ih, h, hc]

theorem reSearchGreedy_eq_none_of_not_mem (l : List Char) (h : '\x7d' ∉ l) :
    reSearchGreedy l = none := by
  induction l with
  | nil => rfl
  | cons c rest ih =>
    have h1 : '\x7d' ∉ rest := fun hm => h (List.mem_cons_of_mem _ hm)
    have h2 : lastCloseIdx rest = none := (lastCloseIdx_eq_none_iff rest).mpr h1
    have h3 : takeToLastClose rest = none := by
      rw [takeToLastClose_eq, h2]; rfl
    by_cases hc : c = '\x7b' <;> simp [reSearchGreedy, hc, h3, ih h1]

/-- The operational greedy-regex search agrees with the declarative
"first opening brace to last closing brace" span selection. -/
theorem reSearchGreedy_eq_outermostSpan (l : List Char) :
    reSearchGreedy l = outermostSpan l := by
  induction l with
  | nil => rfl
  | cons c rest ih =>
    by_cases hc : c = '\x7b'
    · subst hc
      cases h : lastCloseIdx rest with
      | none =>
        have hno : '\x7d' ∉ rest := (lastCloseIdx_eq_none_iff rest).mp h
        have ht : takeToLastClose rest = none := by
          rw [takeToLastClose_eq, h]; rfl
        simp [reSearchGreedy, outermostSpan, firstOpenIdx, lastCloseIdx, ht, h,
          reSearchGreedy_eq_none_of_not_mem rest hno]
      | some k =>
        have ht : takeToLastClose rest = some (rest.take (k + 1)) := by
          rw [takeToLastClose_eq, h]; rfl
        simp [reSearchGreedy, outermostSpan, firstOpenIdx, lastCloseIdx, ht, h,
          List.take_succ_cons]
    · cases hf : firstOpenIdx rest with
      | none =>
        have hrest : outermostSpan rest = none := by simp [outermostSpan, hf]
        simp [reSearchGreedy, hc, ih, hrest, outermostSpan, firstOpenIdx, hf]
      | some i =>
        cases h : lastCloseIdx rest with
        | some k =>
          have harith : k + 1 - (i + 1) = k - i := by omega
          simp [reSearchGreedy, hc, ih, outermostSpan, firstOpenIdx, lastCloseIdx,
            hf, h, List.drop_succ_cons, harith, Nat.add_lt_add_iff_right]
        | none =>
          by_cases hcc : c = '\x7d' <;>
            simp [reSearchGreedy, hc, ih, outermostSpan, firstOpenIdx, lastCloseIdx,
              hf, h, hcc]

/-- Shared helper: `extract_json` is the parse attempt on the
declaratively selected outermost span. -/
theorem extract_json_eq_of_outermost (text : String) (span : List Char)
    (h : outermostSpan text.data = some span) :
    extract_json text =
      match json_loads (String.mk span) with
      | some v => Except.ok v
      | none => Except.error invalidJsonMsg := by
  unfold extract_json
  rw [reSearchGreedy_eq_outermostSpan, h]

theorem firstOpenIdx_eq_none_iff (l : List Char) :
    firstOpenIdx l = none ↔ '\x7b' ∉ l := by
  induction l with
  | nil => simp [firstOpenIdx]
  | cons c rest ih =>
    simp only [firstOpenIdx, List.mem_cons]
    by_cases hc : c = '\x7b'
    · simp [hc]
    · cases hf : firstOpenIdx rest with
      | some i =>
        rw [hf] at ih
        simp only [reduceCtorEq, false_iff, not_not] at ih
        simp [hc, hf, ih]
      | none =>
        rw [hf] at ih
        simp only [true_iff] at ih
        simp [hc, hf, ih]
        exact fun h => hc h.symm

theorem firstOpenIdx_get (l : List Char) (i : Nat)
    (h : firstOpenIdx l = some i) : l.get? i = some '\x7b' := by
  induction l generalizing i with
  | nil => simp [firstOpenIdx] at h
  | cons c rest ih =>
    simp only [firstOpenIdx] at h
    by_cases hc : c = '\x7b'
    · rw [if_pos hc] at h
      cases h
      simp [hc]
    · rw [if_neg hc] at h
      cases hf : firstOpenIdx rest with
      | none => rw [hf] at h; simp at h
      | some i0 =>
        rw [hf] at h
        simp only [Option.map_some', Option.some.injEq] at h
        subst h
        simpa using ih i0 hf

theorem firstOpenIdx_min (l : List Char) (i i' : Nat)
    (h : firstOpenIdx l = some i) (h' : l.get? i' = some '\x7b') : i ≤ i' := by
  induction l generalizing i i' with
  | nil => simp at h'
  | cons c rest ih =>
    simp only [firstOpenIdx] at h
    by_cases hc : c = '\x7b'
    · rw [if_pos hc] at h
      cases h
      exact Nat.zero_le _
    · rw [if_neg hc] at h
      cases hf : firstOpenIdx rest with
      | none => rw [hf] at h; simp at h
      | some i0 =>
        rw [hf] at h
        simp only [Option.map_some', Option.some.injEq] at h
        subst h
        cases i' with
        | zero => simp at h'; exact absurd h' hc
        | succ i'' =>
          simp only [List.get?_cons_succ] at h'
          exact Nat.succ_le_succ (ih i0 i'' hf h')

theorem lastCloseIdx_get (l : List Char) (j : Nat)
    (h : lastCloseIdx l = some j) : l.get? j = some '\x7d' := by
  induction l generalizing j with
  | nil => simp [lastCloseIdx] at h
  | cons c rest ih =>
    simp only [lastCloseIdx] at h
    cases hl : lastCloseIdx rest with
    | some k =>
      rw [hl] at h
      simp only [Option.some.injEq] at h
      subst h
      simpa using ih k hl
    | none =>
      rw [hl] at h
      by_cases hc : c = '\x7d'
      · rw [if_pos hc] at h
        cases h
        simp [hc]
      · rw [if_neg hc] at h
        simp at h

theorem lastCloseIdx_max (l : List Char) (j j' : Nat)
    (h : lastCloseIdx l = some j) (h' : l.get? j' = some '\x7d') : j' ≤ j := by
  induction l generalizing j j' with
  | nil => simp at h'
  | cons c rest ih =>
    simp only [lastCloseIdx] at h
    cases hl : lastCloseIdx rest with
    | some k =>
      rw [hl] at h
      simp only [Option.some.injEq] at h
      subst h
      cases j' with
      | zero => exact Nat.zero_le _
      | succ j'' =>
        simp only [List.get?_cons_succ] at h'
        exact Nat.succ_le_succ (ih k j'' hl h')
    | none =>
      have hno : '\x7d' ∉ rest := (lastCloseIdx_eq_none_iff rest).mp hl
      cases j' with
      | zero => omega
      | succ j'' =>
        simp only [List.get?_cons_succ] at h'
        exact absurd (List.get?_mem h') hno

theorem outermostSpan_eq_none_iff (l : List Char) :
    outermostSpan l = none ↔
      ¬ ∃ i j, i < j ∧ l.get? i = some '\x7b' ∧ l.get? j = some '\x7d' := by
  constructor
  · rintro h ⟨i, j, hij, hi, hj⟩
    unfold outermostSpan at h
    cases hf : firstOpenIdx l with
    | none =>
      exact absurd (List.get?_mem hi) ((firstOpenIdx_eq_none_iff l).mp hf)
    | some i0 =>
      cases hl : lastCloseIdx l with
      | none =>
        exact absurd (List.get?_mem hj) ((lastCloseIdx_eq_none_iff l).mp hl)
      | some j0 =>
        rw [hf, hl] at h
        have hcmp : i0 < j0 := by
          have hi0 : i0 ≤ i := firstOpenIdx_min l i0 i hf hi
          have hj0 : j ≤ j0 := lastCloseIdx_max l j0 j hl hj
          omega
        simp [hcmp] at h
  · intro h
    unfold outermostSpan
    cases hf : firstOpenIdx l with
    | none => rfl
    | some i0 =>
      cases hl : lastCloseIdx l with
      | none => rfl
      | some j0 =>
        have : ¬ i0 < j0 := fun hij =>
          h ⟨i0, j0, hij, firstOpenIdx_get l i0 hf, lastCloseIdx_get l j0 hl⟩
        simp [this]

theorem firstOpenIdx_append (p l : List Char) (hp : '\x7b' ∉ p) :
    firstOpenIdx (p ++ l) = (firstOpenIdx l).map (· + p.length) := by
  induction p with
  | nil =>
    rw [List.nil_append]
    cases firstOpenIdx l <;> simp
  | cons c p ih =>
    have hc : ¬ c = '\x7b' := fun h => hp (by simp [h])
    have hp' : '\x7b' ∉ p := fun hm => hp (List.mem_cons_of_mem _ hm)
    rw [List.cons_append]
    simp only [firstOpenIdx, if_neg hc, ih hp', List.length_cons]
    cases firstOpenIdx l with
    | none => simp
    | some i =>
      simp only [Option.map_some', Option.some.injEq]
      omega

theorem lastCloseIdx_append_right (l q : List Char) (hq : '\x7d' ∉ q) :
    lastCloseIdx (l ++ q) = lastCloseIdx l := by
  induction l with
  | nil => simpa [lastCloseIdx] using (lastCloseIdx_eq_none_iff q).mpr hq
  | cons c l ih =>
    simp only [List.cons_append, lastCloseIdx, List.append_eq, ih]

theorem lastCloseIdx_append_left (p l : List Char) (k : Nat)
    (h : lastCloseIdx l = some k) :
    lastCloseIdx (p ++ l) = some (p.length + k) := by
  induction p with
  | nil => simpa using h
  | cons c p ih =>
    rw [List.cons_append]
    simp only [lastCloseIdx, List.append_eq, ih, List.length_cons]
    congr 1
    omega

theorem lastCloseIdx_cons_some (c : Char) (l : List Char) (k : Nat)
    (h : lastCloseIdx l = some k) : lastCloseIdx (c :: l) = some (k + 1) := by
  simp only [lastCloseIdx, h]

theorem lastCloseIdx_of_getLast (l : List Char)
    (h : l.getLast? = some '\x7d') :
    lastCloseIdx l = some (l.length - 1) := by
  induction l with
  | nil => simp at h
  | cons c rest ih =>
    cases rest with
    | nil =>
      simp only [List.getLast?_singleton, Option.some.injEq] at h
      simp [lastCloseIdx, h]
    | cons d tail =>
      rw [List.getLast?_cons_cons] at h
      have hr := ih h
      rw [lastCloseIdx_cons_some c (d :: tail) _ hr]
      congr 1

/-- Claim C2: `extract_json` selects the outermost brace pair — the span
from the first opening brace to the last closing brace of the whole
text — and attempts to parse exactly that span; in particular, when the
outermost span is not valid JSON the function fails, regardless of any
inner balanced span. -/
theorem extract_json_selects_outermost_span (text : String) (span : List Char)
    (h : outermostSpan text.data = some span) :
    extract_json text =
      match json_loads (String.mk span) with
      | some v => Except.ok v
      | none => Except.error invalidJsonMsg :=
  extract_json_eq_of_outermost text span h

/-- Concrete text whose outermost span is not valid JSON although an
inner balanced span is: the whole text reads as an opening brace, the
word bad, a valid inner object, and two closing braces. -/
def c2Text : String := "\x7bbad \x7b\"a\":1\x7d\x7d"

/-- Witness for C2: at `c2Text` the outermost span is the whole text; it
fails to parse, so `extract_json` fails even though the inner balanced
span parses successfully. -/
theorem extract_json_selects_outermost_span_witness :
    extract_json c2Text = Except.error invalidJsonMsg ∧
      (json_loads "\x7b\"a\":1\x7d").isSome = true := by
  constructor
  · have h := extract_json_selects_outermost_span c2Text c2Text.data (by rfl)
    exact h.trans (by rfl)
  · rfl

/-- Claim C3: `extract_json` fails with the `MalformedResponse` error
exactly when no brace-delimited span exists (no opening brace strictly
before a closing brace), or when the selected outermost span fails to
parse as JSON; an error and a returned record are mutually exclusive. -/
theorem extract_json_error_characterization (text : String) :
    (extract_json text = Except.error invalidJsonMsg ↔
      (outermostSpan text.data = none ∨
        ∃ s, outermostSpan text.data = some s ∧
          json_loads (String.mk s) = none)) ∧
    (outermostSpan text.data = none ↔
      ¬ ∃ i j, i < j ∧ text.data.get? i = some '\x7b' ∧
        text.data.get? j = some '\x7d') := by
  refine ⟨?_, outermostSpan_eq_none_iff text.data⟩
  unfold extract_json
  rw [reSearchGreedy_eq_outermostSpan]
  cases hs : outermostSpan text.data with
  | none => simp
  | some s =>
    cases hv : json_loads (String.mk s) with
    | some v => simp [hv]
    | none => simp [hv]

/-- Claim C1 (amended): when the single well-formed JSON object in the
text is delimited by its own braces, the preceding prose contains no
opening brace and the following prose contains no closing brace,
`extract_json` returns exactly the parse of the object substring. -/
theorem extract_json_exact_on_brace_free_prose
    (pre obj post : String) (v : Json)
    (hpre : '\x7b' ∉ pre.data) (hpost : '\x7d' ∉ post.data)
    (hhead : obj.data.head? = some '\x7b')
    (hlast : obj.data.getLast? = some '\x7d')
    (hv : json_loads obj = some v) :
    extract_json (pre ++ obj ++ post) = Except.ok v := by
  obtain ⟨t, ht⟩ : ∃ t, obj.data = '\x7b' :: t := by
    cases hd : obj.data with
    | nil => rw [hd] at hhead; simp at hhead
    | cons a t =>
      rw [hd] at hhead
      simp only [List.head?_cons, Option.some.injEq] at hhead
      exact ⟨t, by rw [hhead]⟩
  have hlen2 : 2 ≤ obj.data.length := by
    rcases t with _ | ⟨b, t'⟩
    · rw [ht] at hlast; simp at hlast
    · rw [ht]; simp
  have hdata : (pre ++ obj ++ post).data =
      pre.data ++ (obj.data ++ post.data) := by
    rw [String.data_append, String.data_append, List.append_assoc]
  have hfo : firstOpenIdx ((pre ++ obj ++ post)).data =
      some pre.data.length := by
    rw [hdata, firstOpenIdx_append _ _ hpre, ht, List.cons_append]
    simp [firstOpenIdx]
  have hlc1 : lastCloseIdx obj.data = some (obj.data.length - 1) :=
    lastCloseIdx_of_getLast _ hlast
  have hlc2 : lastCloseIdx (obj.data ++ post.data) =
      some (obj.data.length - 1) := by
    rw [lastCloseIdx_append_right _ _ hpost, hlc1]
  have hlc : lastCloseIdx ((pre ++ obj ++ post)).data =
      some (pre.data.length + (obj.data.length - 1)) := by
    rw [hdata]
    exact lastCloseIdx_append_left _ _ _ hlc2
  have hspan : outermostSpan ((pre ++ obj ++ post)).data = some obj.data := by
    unfold outermostSpan
    simp only [hfo, hlc]
    have hlt : pre.data.length < pre.data.length + (obj.data.length - 1) := by
      omega
    rw [if_pos hlt]
    have harith : pre.data.length + (obj.data.length - 1) -
        pre.data.length + 1 = obj.data.length := by omega
    rw [harith, hdata, List.drop_left, List.take_left]
  have hmk : String.mk obj.data = obj := rfl
  rw [extract_json_eq_of_outermost (pre ++ obj ++ post) obj.data hspan,
    hmk, hv]

/-- Witness for the amended C1 at concrete prose and object. -/
theorem extract_json_exact_on_brace_free_prose_witness :
    extract_json ("the model said: " ++ "\x7b\"a\":1\x7d" ++ " hope that helps") =
      Except.ok (Json.obj [([97], Json.num "1")]) := by
  exact extract_json_exact_on_brace_free_prose
    "the model said: " "\x7b\"a\":1\x7d" " hope that helps"
    (Json.obj [([97], Json.num "1")])
    (by decide) (by decide) (by rfl) (by rfl) (by rfl)

/-- Counterexample to C1 as stated: the text consists of exactly one
well-formed JSON object followed by prose that happens to contain a
closing brace; the greedy span then extends past the object and fails to
parse, so `extract_json` raises instead of returning the object's
fields. -/
theorem extract_json_prose_with_brace_fails :
    json_loads "\x7b\"a\":1\x7d" = some (Json.obj [([97], Json.num "1")]) ∧
    extract_json ("\x7b\"a\":1\x7d" ++ " x\x7d") =
      Except.error invalidJsonMsg := by
  exact ⟨rfl, rfl⟩

/-- Character for a 6-bit value, per the standard base64 alphabet. -/
def b64Char (n : Nat) : Char :=
  if n < 26 then Char.ofNat (65 + n)
  else if n < 52 then Char.ofNat (97 + (n - 26))
  else if n < 62 then Char.ofNat (48 + (n - 52))
  else if n = 62 then '+'
  else '/'

/-- Six-bit value of a base64 alphabet character. -/
def b64Val (c : Char) : Option Nat :=
  if 'A' ≤ c ∧ c ≤ 'Z' then some (c.toNat - 65)
  else if 'a' ≤ c ∧ c ≤ 'z' then some (c.toNat - 97 + 26)
  else if '0' ≤ c ∧ c ≤ '9' then some (c.toNat - 48 + 52)
  else if c = '+' then some 62
  else if c = '/' then some 63
  else none

/-- Characters that Python's lenient `base64.b64decode` keeps: alphabet
characters and padding; everything else is discarded before decoding. -/
def isB64Kept (c : Char) : Bool := (b64Val c).isSome || c = '='

/-- Standard base64 encoding of a byte sequence, as produced by
`base64.b64encode`. -/
def b64encodeBytes : List Nat → List Char
  | [] => []
  | [a] => [b64Char (a / 4), b64Char (a % 4 * 16), '=', '=']
  | [a, b] =>
    [b64Char (a / 4), b64Char (a % 4 * 16 + b / 16), b64Char (b % 16 * 4), '=']
  | a :: b :: c :: rest =>
    b64Char (a / 4) :: b64Char (a % 4 * 16 + b / 16) ::
      b64Char (b % 16 * 4 + c / 64) :: b64Char (c % 64) :: b64encodeBytes rest

/-- Decode four-character base64 groups; a padding group ends the data
(remaining characters are ignored, as in the lenient binascii decoder);
a leftover group of fewer than four characters is a padding error. -/
def b64decodeGroups : List Char → Option (List Nat)
  | [] => some []
  | w :: x :: y :: z :: rest =>
    match b64Val w, b64Val x with
    | some vw, some vx =>
      if y = '=' then
        if z = '=' then some [vw * 4 + vx / 16] else none
      else
        match b64Val y with
        | some vy =>
          if z = '=' then some [vw * 4 + vx / 16, vx % 16 * 16 + vy / 4]
          else
            match b64Val z with
            | some vz =>
              (b64decodeGroups rest).map
                (fun t => (vw * 4 + vx / 16) :: (vx % 16 * 16 + vy / 4) ::
                  (vy % 4 * 64 + vz) :: t)
            | none => none
        | none => none
    | _, _ => none
  | _ => none

/-- Model of `base64.b64decode` (default lenient mode): discard
characters outside the alphabet, then decode groups of four. -/
def b64decode (s : String) : Option (List Nat) :=
  b64decodeGroups (s.data.filter isB64Kept)

/-- Split at the first comma, as `str.split(",", 1)` does; `none` models
the unpacking `ValueError` when no comma is present. -/
def splitFirstComma : List Char → Option (List Char × List Char)
  | [] => none
  | c :: rest =>
    if c = ',' then some ([], rest)
    else (splitFirstComma rest).map (fun pq => (c :: pq.1, pq.2))

/-- Model of posix `os.path.join` on two components: an absolute second
component discards the first; otherwise the components are joined,
inserting a separator unless the first already ends with one. -/
def os_path_join (a b : String) : String :=
  if b.data.head? = some '/' then b
  else if a.data = [] then b
  else if a.data.getLast? = some '/' then a ++ b
  else a ++ "/" ++ b

/-- The fixed upload directory of the application. -/
def UPLOAD_FOLDER : String := "static/"

/-- Responses the `/analyze` handler can produce: a redirect to a route,
or a plain string body (which Flask serves with status 200). -/
inductive Response where
  | redirect (endpoint : String) : Response
  | errorText (msg : String) : Response

/-- Body and HTTP status the client sees for each response. -/
def renderResponse : Response → String × Nat
  | .redirect _ => ("", 302)
  | .errorText m => ("Error: " ++ m, 200)

/-- Is the response the plain-text error form? -/
def isErrorText : Response → Bool
  | .errorText _ => true
  | .redirect _ => false

/-- The per-client session store: the stored diagnostic record and the
stored image path. -/
structure Session where
  result : Option Json
  image_url : Option String

/-- An uploaded file part: client-supplied filename and raw content. -/
structure FilePart where
  filename : String
  content : List Nat

/-- The parts of a `POST /analyze` request the handler looks at. -/
structure AnalyzeRequest where
  files_image : Option FilePart
  camera_image : Option String

/-- Everything observable about one run of the handler: the response,
the resulting session, the file writes performed, and the payloads sent
upstream. -/
structure AnalyzeOutcome where
  response : Response
  session : Session
  writes : List (String × List Nat)
  upstreamCalls : List (List Nat)

/-- Message of the `ValueError` raised when `split(",", 1)` cannot be
unpacked into two parts. -/
def unpackErrMsg : String := "not enough values to unpack (expected 2, got 1)"

/-- Message of the `binascii.Error` raised on invalid base64 input. -/
def b64ErrMsg : String := "Invalid base64-encoded string"

/-- The tail of the handler after an image file has been selected and
saved: re-decode the saved bytes (PIL, modelled by the `dec` oracle),
call the vision API (modelled by the `up` oracle), extract the JSON, and
only on full success store the record and redirect; any failure returns
the error text with the session untouched. -/
def afterSave (dec : List Nat → Except String (List Nat))
    (up : List Nat → Except String String)
    (sess : Session) (filepath : String) (fileBytes : List Nat) :
    AnalyzeOutcome :=
  match dec fileBytes with
  | .error e => ⟨.errorText e, sess, [(filepath, fileBytes)], []⟩
  | .ok jpegBytes =>
    match up jpegBytes with
    | .error e => ⟨.errorText e, sess, [(filepath, fileBytes)], [jpegBytes]⟩
    | .ok text =>
      match extract_json text with
      | .error e => ⟨.errorText e, sess, [(filepath, fileBytes)], [jpegBytes]⟩
      | .ok r =>
        ⟨.redirect "result", ⟨some r, some filepath⟩,
          [(filepath, fileBytes)], [jpegBytes]⟩

/-- The camera branch: strip the data-URL header at the first comma,
base64-decode the remainder, write it to the fixed capture path, and
continue with `afterSave`. -/
def camera_branch (dec : List Nat → Except String (List Nat))
    (up : List Nat → Except String String)
    (sess : Session) (cam : String) : AnalyzeOutcome :=
  match splitFirstComma cam.data with
  | none => ⟨.errorText unpackErrMsg, sess, [], []⟩
  | some he =>
    match b64decode (String.mk he.2) with
    | none => ⟨.errorText b64ErrMsg, sess, [], []⟩
    | some bytes =>
      afterSave dec up sess (os_path_join UPLOAD_FOLDER "captured.jpg") bytes

/-- Model of the `/analyze` route: prefer an uploaded file with a
non-empty filename, else a camera capture field, else redirect back to
the input page. -/
def analyze (dec : List Nat → Except String (List Nat))
    (up : List Nat → Except String String)
    (req : AnalyzeRequest) (sess : Session) : AnalyzeOutcome :=
  match req.files_image with
  | some fp =>
    if fp.filename ≠ "" then
      afterSave dec up sess (os_path_join UPLOAD_FOLDER fp.filename) fp.content
    else
      match req.camera_image with
      | some cam => camera_branch dec up sess cam
      | none => ⟨.redirect "index", sess, [], []⟩
  | none =>
    match req.camera_image with
    | some cam => camera_branch dec up sess cam
    | none => ⟨.redirect "index", sess, [], []⟩

/-- What the `/result` route renders: the template filled with the
session's stored record and image path. -/
structure ResultPage where
  template : String
  result : Option Json
  image_url : Option String

/-- Model of the `/result` route. -/
def result_route (sess : Session) : ResultPage :=
  ⟨"result.html", sess.result, sess.image_url⟩

/-- Code points of a key string (object keys are stored as decoded code
points). -/
def keyOf (s : String) : List Nat := s.data.map Char.toNat

/-- The six fields of a Diagnostic Record named by the specification. -/
def requiredKeys : List (List Nat) :=
  [keyOf "diagnosis", keyOf "description", keyOf "symptoms",
    keyOf "home_remedies", keyOf "medicines", keyOf "disclaimer"]

/-- Does a parsed object carry the given key? -/
def hasKey (j : Json) (k : List Nat) : Bool :=
  match j with
  | .obj fs => fs.any (fun p => p.1 == k)
  | _ => false

/-- All six Diagnostic Record fields present? -/
def hasSixFields (j : Json) : Bool := requiredKeys.all (hasKey j)

/-- An HTTP response from the upstream API, as seen by the client code:
final status and body text. -/
structure HttpResponse where
  status : Nat
  body : String

/-- Message for `requests.raise_for_status` failures. -/
def httpStatusErrMsg : String := "HTTP error from upstream"

/-- Message for a response body that is not JSON. -/
def jsonDecodeErrMsg : String := "upstream body is not valid JSON"

/-- Message for a missing key or index while navigating the body. -/
def lookupErrMsg : String := "missing key or index in upstream body"

/-- Python dict lookup for an object built from a field list: the last
duplicate wins. -/
def dictGetLast (fs : List (List Nat × Json)) (k : List Nat) : Option Json :=
  match fs with
  | [] => none
  | p :: rest =>
    match dictGetLast rest k with
    | some w => some w
    | none => if p.1 = k then some p.2 else none

/-- Dictionary indexing on a JSON value. -/
def jGetKey (j : Json) (k : List Nat) : Option Json :=
  match j with
  | .obj fs => dictGetLast fs k
  | _ => none

/-- List indexing on a JSON value. -/
def jGetIdx (j : Json) (i : Nat) : Option Json :=
  match j with
  | .arr xs => xs.get? i
  | _ => none

/-- Response-side model of `call_openrouter_vision`: raise for a 4xx/5xx
status, parse the body as JSON, and return the value at
`choices[0].message.content` unchanged.  The request side (prompt,
base64 data URL, headers) is outbound I/O and is not consulted by any
claim about the return value. -/
def call_openrouter_vision (resp : HttpResponse) : Except String Json :=
  if 400 ≤ resp.status ∧ resp.status < 600 then .error httpStatusErrMsg
  else
    match json_loads resp.body with
    | none => .error jsonDecodeErrMsg
    | some bj =>
      match ((jGetKey bj (keyOf "choices")).bind (fun c => jGetIdx c 0)
          |>.bind (fun c => jGetKey c (keyOf "message"))
          |>.bind (fun m => jGetKey m (keyOf "content"))) with
      | some v => .ok v
      | none => .error lookupErrMsg

theorem b64Char_spec : ∀ n < 64, b64Val (b64Char n) = some n ∧ ¬ b64Char n = '=' := by
  decide

theorem isB64Kept_eq : isB64Kept '=' = true := by decide

theorem b64_roundtrip (l : List Nat) :
    (∀ x ∈ l, x < 256) →
    b64decodeGroups (List.filter isB64Kept (b64encodeBytes l)) = some l := by
  induction l using b64encodeBytes.induct with
  | case1 => intro _; rfl
  | case2 a =>
    intro h
    have ha : a < 256 := h a (by simp)
    have h1 := b64Char_spec (a / 4) (by omega)
    have h2 := b64Char_spec (a % 4 * 16) (by omega)
    have k1 : isB64Kept (b64Char (a / 4)) = true := by simp [isB64Kept, h1.1]
    have k2 : isB64Kept (b64Char (a % 4 * 16)) = true := by simp [isB64Kept, h2.1]
    simp only [b64encodeBytes, List.filter_cons, k1, k2, isB64Kept_eq, if_true,
      List.filter_nil]
    simp only [b64decodeGroups, h1.1, h2.1, if_pos rfl]
    have e1 : a / 4 * 4 + a % 4 * 16 / 16 = a := by omega
    rw [e1]
    simp
  | case3 a b =>
    intro h
    have ha : a < 256 := h a (by simp)
    have hb : b < 256 := h b (by simp)
    have h1 := b64Char_spec (a / 4) (by omega)
    have h2 := b64Char_spec (a % 4 * 16 + b / 16) (by omega)
    have h3 := b64Char_spec (b % 16 * 4) (by omega)
    have k1 : isB64Kept (b64Char (a / 4)) = true := by simp [isB64Kept, h1.1]
    have k2 : isB64Kept (b64Char (a % 4 * 16 + b / 16)) = true := by
      simp [isB64Kept, h2.1]
    have k3 : isB64Kept (b64Char (b % 16 * 4)) = true := by simp [isB64Kept, h3.1]
    simp only [b64encodeBytes, List.filter_cons, k1, k2, k3, isB64Kept_eq,
      if_true, List.filter_nil]
    simp only [b64decodeGroups, h1.1, h2.1, h3.1, if_neg h3.2, if_pos rfl]
    have e1 : a / 4 * 4 + (a % 4 * 16 + b / 16) / 16 = a := by omega
    have e2 : (a % 4 * 16 + b / 16) % 16 * 16 + b % 16 * 4 / 4 = b := by omega
    rw [e1, e2]
    simp
  | case4 a b c rest ih =>
    intro h
    have ha : a < 256 := h a (by simp)
    have hb : b < 256 := h b (by simp)
    have hc : c < 256 := h c (by simp)
    have hrest : ∀ x ∈ rest, x < 256 := fun x hx => h x (by simp [hx])
    have h1 := b64Char_spec (a / 4) (by omega)
    have h2 := b64Char_spec (a % 4 * 16 + b / 16) (by omega)
    have h3 := b64Char_spec (b % 16 * 4 + c / 64) (by omega)
    have h4 := b64Char_spec (c % 64) (by omega)
    have k1 : isB64Kept (b64Char (a / 4)) = true := by simp [isB64Kept, h1.1]
    have k2 : isB64Kept (b64Char (a % 4 * 16 + b / 16)) = true := by
      simp [isB64Kept, h2.1]
    have k3 : isB64Kept (b64Char (b % 16 * 4 + c / 64)) = true := by
      simp [isB64Kept, h3.1]
    have k4 : isB64Kept (b64Char (c % 64)) = true := by simp [isB64Kept, h4.1]
    simp only [b64encodeBytes, List.filter_cons, k1, k2, k3, k4, if_true]
    simp only [b64decodeGroups, h1.1, h2.1, h3.1, h4.1, if_neg h3.2,
      if_neg h4.2, ih hrest, Option.map_some']
    have e1 : a / 4 * 4 + (a % 4 * 16 + b / 16) / 16 = a := by omega
    have e2 : (a % 4 * 16 + b / 16) % 16 * 16 + (b % 16 * 4 + c / 64) / 4 = b := by
      omega
    have e3 : (b % 16 * 4 + c / 64) % 4 * 64 + c % 64 = c := by omega
    rw [e1, e2, e3]

theorem splitFirstComma_append (p r : List Char) (hp : ',' ∉ p) :
    splitFirstComma (p ++ ',' :: r) = some (p, r) := by
  induction p with
  | nil => simp [splitFirstComma]
  | cons c p ih =>
    have hc : ¬ c = ',' := fun hh => hp (by simp [hh])
    have hp' : ',' ∉ p := fun hm => hp (List.mem_cons_of_mem _ hm)
    rw [List.cons_append]
    simp [splitFirstComma, hc, ih hp']

theorem afterSave_writes (dec : List Nat → Except String (List Nat))
    (up : List Nat → Except String String)
    (sess : Session) (fp : String) (bytes : List Nat) :
    (afterSave dec up sess fp bytes).writes = [(fp, bytes)] := by
  cases hd : dec bytes with
  | error e => simp [afterSave, hd]
  | ok jb =>
    cases hu : up jb with
    | error e => simp [afterSave, hd, hu]
    | ok t =>
      cases he : extract_json t with
      | error e => simp [afterSave, hd, hu, he]
      | ok r => simp [afterSave, hd, hu, he]

/-- Oracle: PIL decode that succeeds and returns the bytes unchanged. -/
def okDec : List Nat → Except String (List Nat) := fun bs => .ok bs

/-- Oracle: upstream call that answers with a JSON object carrying only
a diagnosis field. -/
def okUp : List Nat → Except String String :=
  fun _ => .ok "\x7b\"diagnosis\":\"x\"\x7d"

/-- Oracle: PIL decode that fails as on an unreadable image. -/
def failDec : List Nat → Except String (List Nat) :=
  fun _ => .error "cannot identify image file"

/-- Claim C8: when the camera field is the data-URL header followed by
the standard base64 encoding of bytes `b`, the handler strips the header
at the first comma, decodes the remainder, and the single file write
carries exactly the original bytes `b` at the fixed capture path. -/
theorem camera_branch_decodes_exact_bytes
    (b : List Nat) (hb : ∀ x ∈ b, x < 256)
    (dec : List Nat → Except String (List Nat))
    (up : List Nat → Except String String) (sess : Session) :
    (analyze dec up
        ⟨none, some ("data:image/png;base64," ++ String.mk (b64encodeBytes b))⟩
        sess).writes = [("static/captured.jpg", b)] := by
  have hmkdata : ∀ L : List Char, (String.mk L).data = L := fun _ => rfl
  have hsplit : splitFirstComma
      ("data:image/png;base64," ++ String.mk (b64encodeBytes b)).data
      = some ("data:image/png;base64".data, b64encodeBytes b) := by
    rw [String.data_append, hmkdata]
    have hcomma : ("data:image/png;base64," : String).data
        = "data:image/png;base64".data ++ [','] := by rfl
    rw [hcomma, List.append_assoc, List.singleton_append]
    exact splitFirstComma_append _ _ (by decide)
  have hdec : b64decode (String.mk (b64encodeBytes b)) = some b := by
    unfold b64decode
    rw [hmkdata]
    exact b64_roundtrip b hb
  have hjoin : os_path_join UPLOAD_FOLDER "captured.jpg" = "static/captured.jpg" := by
    decide
  simp only [analyze, camera_branch, hsplit, hdec, hjoin, afterSave_writes]

/-- Witness for C8 on the bytes of the word hi. -/
theorem camera_branch_decodes_exact_bytes_witness :
    (analyze okDec okUp
        ⟨none, some ("data:image/png;base64," ++
          String.mk (b64encodeBytes [104, 105]))⟩
        ⟨none, none⟩).writes = [("static/captured.jpg", [104, 105])] := by
  exact camera_branch_decodes_exact_bytes [104, 105] (by decide) okDec okUp
    ⟨none, none⟩

/-- Counterexample for C4: a parsed upstream object carrying only a
diagnosis field — five of the six Diagnostic Record fields missing — is
stored in the session anyway, and the handler redirects to the results
page instead of failing. -/
theorem analyze_stores_record_missing_fields :
    (analyze okDec okUp ⟨some ⟨"eye.jpg", [1, 2, 3]⟩, none⟩
        ⟨none, none⟩).session.result
      = some (Json.obj [(keyOf "diagnosis", Json.str (keyOf "x"))]) ∧
    hasSixFields (Json.obj [(keyOf "diagnosis", Json.str (keyOf "x"))]) = false ∧
    (analyze okDec okUp ⟨some ⟨"eye.jpg", [1, 2, 3]⟩, none⟩
        ⟨none, none⟩).response = Response.redirect "result" := by
  exact ⟨rfl, rfl, rfl⟩

/-- Claim C4 (amended): after a successful image decode and upstream
call, the handler stores exactly the record that `extract_json` yields —
it never checks that the six Diagnostic Record fields are present — and
stores nothing precisely when extraction fails. -/
theorem analyze_stores_iff_extraction_succeeds
    (dec : List Nat → Except String (List Nat))
    (up : List Nat → Except String String)
    (sess : Session) (fp : String) (bytes jb : List Nat) (text : String)
    (hdec : dec bytes = Except.ok jb) (hup : up jb = Except.ok text) :
    (∀ r, extract_json text = Except.ok r →
      (afterSave dec up sess fp bytes).session = ⟨some r, some fp⟩) ∧
    (∀ e, extract_json text = Except.error e →
      (afterSave dec up sess fp bytes).session = sess) := by
  constructor
  · intro r hr
    simp [afterSave, hdec, hup, hr]
  · intro e he
    simp [afterSave, hdec, hup, he]

/-- Witness for the amended C4: a record missing five fields is stored
as-is. -/
theorem analyze_stores_iff_extraction_succeeds_witness :
    (afterSave okDec okUp ⟨none, none⟩ "static/eye.jpg" [1, 2, 3]).session
      = ⟨some (Json.obj [(keyOf "diagnosis", Json.str (keyOf "x"))]),
          some "static/eye.jpg"⟩ := by
  exact (analyze_stores_iff_extraction_succeeds okDec okUp ⟨none, none⟩
    "static/eye.jpg" [1, 2, 3] [1, 2, 3] "\x7b\"diagnosis\":\"x\"\x7d"
    rfl rfl).1 (Json.obj [(keyOf "diagnosis", Json.str (keyOf "x"))]) rfl

/-- Claim C5: every failure after input selection — image decode,
upstream call, or JSON extraction — produces the plain-text body
"Error: " followed by the exception message, served with HTTP status
200, with no distinction between error kinds; no exception escapes. -/
theorem analyze_failures_collapse_to_error_text
    (dec : List Nat → Except String (List Nat))
    (up : List Nat → Except String String)
    (sess : Session) (fp : String) (bytes : List Nat) :
    (∀ e, dec bytes = Except.error e →
      (afterSave dec up sess fp bytes).response = Response.errorText e ∧
      renderResponse (afterSave dec up sess fp bytes).response
        = ("Error: " ++ e, 200)) ∧
    (∀ jb e, dec bytes = Except.ok jb → up jb = Except.error e →
      (afterSave dec up sess fp bytes).response = Response.errorText e ∧
      renderResponse (afterSave dec up sess fp bytes).response
        = ("Error: " ++ e, 200)) ∧
    (∀ jb text, dec bytes = Except.ok jb → up jb = Except.ok text →
      extract_json text = Except.error invalidJsonMsg →
      (afterSave dec up sess fp bytes).response
        = Response.errorText invalidJsonMsg ∧
      renderResponse (afterSave dec up sess fp bytes).response
        = ("Error: " ++ invalidJsonMsg, 200)) := by
  refine ⟨?_, ?_, ?_⟩
  · intro e he
    simp [afterSave, he, renderResponse]
  · intro jb e hd hu
    simp [afterSave, hd, hu, renderResponse]
  · intro jb text hd hu hx
    simp [afterSave, hd, hu, hx, renderResponse]

/-- Witness for C5 at a failing image decode. -/
theorem analyze_failures_collapse_to_error_text_witness :
    (afterSave failDec okUp ⟨none, none⟩ "static/eye.jpg" [1]).response
      = Response.errorText "cannot identify image file" ∧
    renderResponse (afterSave failDec okUp ⟨none, none⟩ "static/eye.jpg" [1]).response
      = ("Error: cannot identify image file", 200) := by
  exact (analyze_failures_collapse_to_error_text failDec okUp ⟨none, none⟩
    "static/eye.jpg" [1]).1 "cannot identify image file" rfl

/-- Claim C6: a request with neither an upload carrying a non-empty
filename nor a camera field makes the handler redirect to the input
page with no error text, no file write, no upstream call, and an
unchanged session. -/
theorem analyze_no_input_is_silent_redirect
    (dec : List Nat → Except String (List Nat))
    (up : List Nat → Except String String)
    (req : AnalyzeRequest) (sess : Session)
    (hfile : ∀ fp, req.files_image = some fp → fp.filename = "")
    (hcam : req.camera_image = none) :
    analyze dec up req sess = ⟨Response.redirect "index", sess, [], []⟩ := by
  unfold analyze
  cases hf : req.files_image with
  | none => rw [hcam]
  | some fp =>
    have hempty : fp.filename = "" := hfile fp hf
    simp [hempty, hcam]

/-- Witness for C6 at the empty request. -/
theorem analyze_no_input_is_silent_redirect_witness :
    analyze okDec okUp ⟨none, none⟩ ⟨some Json.null, some "static/old.jpg"⟩
      = ⟨Response.redirect "index",
          ⟨some Json.null, some "static/old.jpg"⟩, [], []⟩ := by
  exact analyze_no_input_is_silent_redirect okDec okUp ⟨none, none⟩
    ⟨some Json.null, some "static/old.jpg"⟩ (fun fp h => nomatch h) rfl

/-- Claim C7: on a successful upstream response whose parsed body holds
a string at choices[0].message.content, the Vision Client returns
exactly that string value, with no parsing or transformation. -/
theorem call_openrouter_vision_returns_content_verbatim
    (resp : HttpResponse) (bj c0 m : Json) (cs : List Json) (s : List Nat)
    (hst : resp.status < 400)
    (hbody : json_loads resp.body = some bj)
    (hchoices : jGetKey bj (keyOf "choices") = some (Json.arr (c0 :: cs)))
    (hmsg : jGetKey c0 (keyOf "message") = some m)
    (hcontent : jGetKey m (keyOf "content") = some (Json.str s)) :
    call_openrouter_vision resp = Except.ok (Json.str s) := by
  unfold call_openrouter_vision
  rw [if_neg (by omega : ¬ (400 ≤ resp.status ∧ resp.status < 600)), hbody]
  simp [hchoices, jGetIdx, hmsg, hcontent]

/-- A concrete successful upstream response. -/
def c7Resp : HttpResponse :=
  ⟨200, "\x7b\"choices\":[\x7b\"message\":\x7b\"content\":\"hi\"\x7d\x7d]\x7d"⟩

/-- Witness for C7 at a concrete well-shaped response. -/
theorem call_openrouter_vision_returns_content_verbatim_witness :
    call_openrouter_vision c7Resp = Except.ok (Json.str (keyOf "hi")) := by
  exact call_openrouter_vision_returns_content_verbatim c7Resp
    (Json.obj [(keyOf "choices", Json.arr [Json.obj [(keyOf "message",
      Json.obj [(keyOf "content", Json.str (keyOf "hi"))])]])])
    (Json.obj [(keyOf "message",
      Json.obj [(keyOf "content", Json.str (keyOf "hi"))])])
    (Json.obj [(keyOf "content", Json.str (keyOf "hi"))])
    [] (keyOf "hi") (by decide) rfl rfl rfl rfl

/-- Counterexample for C9: an absolute client-supplied filename makes
`os.path.join` discard the upload directory entirely, so the write lands
outside it. -/
theorem analyze_upload_escapes_upload_folder :
    (analyze okDec okUp ⟨some ⟨"/etc/passwd", [9]⟩, none⟩ ⟨none, none⟩).writes
      = [("/etc/passwd", [9])] ∧
    ¬ ∃ rest, ("/etc/passwd" : String) = "static/" ++ rest := by
  constructor
  · rfl
  · rintro ⟨rest, hr⟩
    have hd := congrArg String.data hr
    rw [String.data_append] at hd
    have hh := congrArg List.head? hd
    simp at hh

/-- Claim C9 (amended): the camera branch writes only the fixed path
static/captured.jpg; the upload branch writes exactly the join of the
upload folder with the client filename, which stays under the upload
folder (as a path prefix) whenever the filename is relative — an
absolute filename replaces the folder, and dot-dot segments may also
escape it. -/
theorem analyze_write_path_policy
    (dec : List Nat → Except String (List Nat))
    (up : List Nat → Except String String) (sess : Session) :
    (∀ fn content, fn ≠ "" →
      (analyze dec up ⟨some ⟨fn, content⟩, none⟩ sess).writes
        = [(os_path_join UPLOAD_FOLDER fn, content)]) ∧
    (∀ fn, ¬ fn.data.head? = some '/' →
      ∃ rest, os_path_join UPLOAD_FOLDER fn = "static/" ++ rest) ∧
    (∀ cam p c, (p, c) ∈ (analyze dec up ⟨none, some cam⟩ sess).writes →
      p = "static/captured.jpg") := by
  refine ⟨?_, ?_, ?_⟩
  · intro fn content hfn
    simp only [analyze]
    rw [if_pos hfn]
    exact afterSave_writes dec up sess _ content
  · intro fn hfn
    refine ⟨fn, ?_⟩
    have h2 : (UPLOAD_FOLDER.data.getLast? = some '/') = True := by decide
    have h3 : (UPLOAD_FOLDER.data = []) = False := by decide
    simp [os_path_join, hfn, h2, h3, UPLOAD_FOLDER]
  · intro cam p c hmem
    simp only [analyze, camera_branch] at hmem
    cases hs : splitFirstComma cam.data with
    | none => simp only [hs] at hmem; simp at hmem
    | some he =>
      simp only [hs] at hmem
      cases hb : b64decode (String.mk he.2) with
      | none => simp only [hb] at hmem; simp at hmem
      | some bytes =>
        simp only [hb, afterSave_writes] at hmem
        have hj : os_path_join UPLOAD_FOLDER "captured.jpg"
            = "static/captured.jpg" := by decide
        rw [hj] at hmem
        simp at hmem
        exact hmem.1

/-- Witness for the amended C9 at a relative filename and a concrete
camera capture. -/
theorem analyze_write_path_policy_witness :
    (analyze okDec okUp ⟨some ⟨"a.png", [1]⟩, none⟩ ⟨none, none⟩).writes
      = [(os_path_join UPLOAD_FOLDER "a.png", [1])] := by
  exact (analyze_write_path_policy okDec okUp ⟨none, none⟩).1 "a.png" [1]
    (by decide)

/-- Claim C10: when any step after image selection fails, the session is
left untouched, so a record stored by an earlier successful analysis is
intact and the /result page renders exactly as before. -/
theorem analyze_failure_preserves_previous_result
    (dec : List Nat → Except String (List Nat))
    (up : List Nat → Except String String)
    (sess : Session) (fp : String) (bytes : List Nat)
    (h : isErrorText (afterSave dec up sess fp bytes).response = true) :
    (afterSave dec up sess fp bytes).session = sess ∧
    result_route (afterSave dec up sess fp bytes).session = result_route sess := by
  cases hd : dec bytes with
  | error e => simp [afterSave, hd]
  | ok jb =>
    cases hu : up jb with
    | error e => simp [afterSave, hd, hu]
    | ok text =>
      cases he : extract_json text with
      | error e => simp [afterSave, hd, hu, he]
      | ok r =>
        simp [afterSave, hd, hu, he, isErrorText] at h

/-- Witness for C10: a decode failure leaves an earlier stored record in
place. -/
theorem analyze_failure_preserves_previous_result_witness :
    (afterSave failDec okUp ⟨some Json.null, some "static/old.jpg"⟩
        "static/eye.jpg" [1]).session
      = ⟨some Json.null, some "static/old.jpg"⟩ ∧
    result_route (afterSave failDec okUp ⟨some Json.null, some "static/old.jpg"⟩
        "static/eye.jpg" [1]).session
      = result_route ⟨some Json.null, some "static/old.jpg"⟩ := by
  exact analyze_failure_preserves_previous_result failDec okUp
    ⟨some Json.null, some "static/old.jpg"⟩ "static/eye.jpg" [1] rfl

end EyeCare
